import Mathlib

/-!
Verification of the context-graph core of the pyrometer analyzer.

We give a shallow embedding of the data model and the operations of
`shared/src/context/mod.rs`, `src/context/mod.rs` and `src/context/analyzer.rs`:
the append-only node/edge graph becomes an arena (`List Node` indexed by
position, matching petgraph insertion indices), stateful methods become
explicit state-passing functions, and `panic!`/`todo!` calls become
`Except.error` results carrying the panic message.  Upward recursion over
parent contexts and recursive graph searches take an explicit fuel argument
(the Rust code recurses on the acyclic, append-only graph; fuel larger than
the graph size makes the two agree).
-/

/-- Source location (`solang_parser::pt::Loc`), abstracted to a numeric code. -/
abbrev Loc := Nat

/-- `shared::range::elem_ty::DynSide`: which bound of another node a lazy
reference points at. -/
inductive DynSide
  | Min
  | Max
deriving DecidableEq, Repr

/-- A range bound expression from the range collaborator: either a concrete
value or a `Dynamic` lazy reference to another node's bound (the
`Dynamic::new(idx, side, loc)` construct used by `assign`). -/
inductive RElem
  | concrete (v : Nat)
  | dynamic (idx : Nat) (side : DynSide) (loc : Loc)
deriving DecidableEq, Repr

/-- The range attached to a builtin-typed variable: a min and a max bound
(`Range { min, max }` of the external range collaborator; `range_min()` and
`range_max()` return the two fields). -/
structure SRange where
  min : RElem
  max : RElem
deriving DecidableEq, Repr

/-- `Concrete` literal values (`Concrete::Uint(size, val)`, `Concrete::Int`,
and the remaining non-numeric variants collapsed into `other`). -/
inductive Concrete
  | uint (size : Nat) (val : Nat)
  | int (size : Nat) (val : Int)
  | other (tag : Nat)
deriving DecidableEq, Repr

/-- `VarType`: a type carrying either a concrete literal (pointing at a
`Concrete` node) or a builtin type (pointing at a `Builtin` node) with an
optional attached range; remaining variants collapsed into `other`. -/
inductive VarType
  | concreteTy (node : Nat)
  | builtIn (node : Nat) (range : Option SRange)
  | other (tag : Nat)
deriving DecidableEq, Repr

/-- `ContextVar`: one SSA-like snapshot of a variable
(`shared/src/context/var.rs`, fields as listed in the spec data model). -/
structure ContextVar where
  loc : Option Loc
  name : String
  display_name : String
  storage : Option Nat
  is_tmp : Bool
  tmp_of : Option Nat
  ty : VarType
deriving DecidableEq, Repr

/-- `Context` (`shared/src/context/mod.rs` lines 44-72), field for field.
`ContextNode` indices are plain `Nat` arena indices. -/
structure Context where
  parent_fn : Nat
  parent_ctx : Option Nat
  ctx_deps : List (String × Nat)
  path : String
  killed : Option Loc
  is_fork : Bool
  fn_call : Option Nat
  ext_fn_call : Option Nat
  forks : List Nat
  children : List Nat
  tmp_var_ctr : Nat
  loc : Loc
  ret : List (Loc × Nat)
deriving DecidableEq, Repr

/-- The default context used to totalize `underlying` lookups (the Rust code
panics with a node-type-confusion message on a non-`Context` node; theorems
carry the node-kind hypotheses that rule the default out). -/
def Context.empty : Context :=
  { parent_fn := 0, parent_ctx := none, ctx_deps := [], path := ""
    killed := none, is_fork := false, fn_call := none, ext_fn_call := none
    forks := [], children := [], tmp_var_ctr := 0, loc := 0, ret := [] }

/-- Default variable for totalizing `ContextVarNode::underlying`. -/
def ContextVar.empty : ContextVar :=
  { loc := none, name := "", display_name := "", storage := none
    is_tmp := false, tmp_of := none, ty := VarType.other 0 }

/-- `Node`: the tagged payload of a graph node (`Node::Context`,
`Node::ContextVar`, `Node::Builtin`, `Node::Concrete`, `Node::Function`,
remaining kinds collapsed into `other`). -/
inductive Node
  | context (c : Context)
  | contextVar (v : ContextVar)
  | builtin (b : Nat)
  | concrete (c : Concrete)
  | function (name : Option String)
  | other (tag : Nat)
deriving DecidableEq, Repr

/-- `ContextEdge` (`shared/src/context/mod.rs` lines 12-41). -/
inductive ContextEdge
  | Context
  | Subcontext
  | ContextFork
  | ContextMerge
  | Call
  | Variable
  | InheritedVariable
  | AttrAccess
  | Index
  | IndexAccess
  | FuncAccess
  | Assign
  | StorageAssign
  | MemoryAssign
  | Prev
  | Return
  | Range
deriving DecidableEq, Repr

/-- `Edge`: the analyzer-level edge weight (`Edge::Context(..)`,
`Edge::FunctionParam`, `Edge::FunctionReturn`, rest collapsed). -/
inductive Edge
  | context (e : ContextEdge)
  | functionParam
  | functionReturn
  | other (tag : Nat)
deriving DecidableEq, Repr

/-- One directed edge of the shared graph: source, target, weight. -/
structure GEdge where
  src : Nat
  tgt : Nat
  w : Edge
deriving DecidableEq, Repr

/-- The shared append-only graph plus the builtin-type registry: the state
behind `impl AnalyzerLike` (`add_node`, `add_edge`, `node`, `builtins`).
Node indices are list positions, in insertion order, exactly as petgraph
hands out indices. -/
structure Analyzer where
  nodes : List Node
  edges : List GEdge
  builtins : List (Nat × Nat)
deriving DecidableEq, Repr

/-- `AnalyzerLike::node`: payload lookup by index (totalized by a default). -/
def Analyzer.node (a : Analyzer) (i : Nat) : Node :=
  a.nodes.getD i (Node.other 0)

/-- `ContextNode::underlying`: the context payload at index `i` (the Rust
code panics on node-type confusion; we totalize with `Context.empty`). -/
def Analyzer.ctxOf (a : Analyzer) (i : Nat) : Context :=
  match a.node i with
  | Node.context c => c
  | _ => Context.empty

/-- `ContextVarNode::underlying`, totalized with `ContextVar.empty`. -/
def Analyzer.varOf (a : Analyzer) (i : Nat) : ContextVar :=
  match a.node i with
  | Node.contextVar v => v
  | _ => ContextVar.empty

/-- `AnalyzerLike::add_node`: append a node, returning its fresh index. -/
def Analyzer.addNode (a : Analyzer) (n : Node) : Analyzer × Nat :=
  ({ a with nodes := a.nodes ++ [n] }, a.nodes.length)

/-- `AnalyzerLike::add_edge`: append a directed edge. -/
def Analyzer.addEdge (a : Analyzer) (src tgt : Nat) (w : Edge) : Analyzer :=
  { a with edges := a.edges ++ [{ src := src, tgt := tgt, w := w }] }

/-- Write the context payload at index `i` (`underlying_mut` then a field
update; no-op when the node is not a `Context`, where Rust would panic). -/
def Analyzer.setCtx (a : Analyzer) (i : Nat) (c : Context) : Analyzer :=
  match a.nodes.getD i (Node.other 0) with
  | Node.context _ => { a with nodes := a.nodes.set i (Node.context c) }
  | _ => a

/-- The single mutation `kill`/`end_if_all_forks_ended` perform:
`context.killed = Some(kill_loc)` through `underlying_mut`. -/
def Analyzer.setKilled (a : Analyzer) (i : Nat) (loc : Loc) : Analyzer :=
  match a.nodes.getD i (Node.other 0) with
  | Node.context c => { a with nodes := a.nodes.set i (Node.context { c with killed := some loc }) }
  | _ => a

/-- `ContextNode::is_killed` (`shared/src/context/mod.rs` lines 361-363). -/
def Analyzer.isKilled (a : Analyzer) (i : Nat) : Bool :=
  (a.ctxOf i).killed.isSome

/-- `ContextNode::is_ended` (lines 366-369): killed or has returned. -/
def Analyzer.isEnded (a : Analyzer) (i : Nat) : Bool :=
  (a.ctxOf i).killed.isSome || !(a.ctxOf i).ret.isEmpty

/-- `ContextNode::live_forks` (lines 278-286): the forks not yet ended. -/
def Analyzer.liveForks (a : Analyzer) (i : Nat) : List Nat :=
  (a.ctxOf i).forks.filter (fun f => !(a.isEnded f))

/-- `ContextNode::kill` (lines 302-308): set `killed`, then propagate to the
parent via `end_if_all_forks_ended`.  The upward recursion takes fuel; the
Rust recursion terminates because parent chains in the append-only graph are
acyclic, so any fuel larger than the chain length agrees with it. -/
def Analyzer.end_if_all_forks_ended : Nat → Analyzer → Nat → Loc → Analyzer
  | 0, a, _, _ => a
  | fuel+1, a, i, loc =>
    if (a.ctxOf i).forks.all (fun f => a.isEnded f) then
      let a2 := a.setKilled i loc
      match (a.ctxOf i).parent_ctx with
      | some p => Analyzer.end_if_all_forks_ended fuel a2 p loc
      | none => a2
    else a

/-- `ContextNode::kill` itself. -/
def Analyzer.kill (fuel : Nat) (a : Analyzer) (i : Nat) (loc : Loc) : Analyzer :=
  let a2 := a.setKilled i loc
  match (a2.ctxOf i).parent_ctx with
  | some p => Analyzer.end_if_all_forks_ended fuel a2 p loc
  | none => a2

/-- Insert into a sorted duplicate-free list of indices: the model of
`BTreeSet<NodeIdx>` insertion (iteration order of a `BTreeSet` is ascending). -/
def insSorted (x : Nat) : List Nat → List Nat
  | [] => [x]
  | y :: ys => if x < y then x :: y :: ys else if x = y then y :: ys else y :: insSorted x ys

/-- Collect a list into the sorted duplicate-free list a `BTreeSet` holds. -/
def sortDedup (l : List Nat) : List Nat :=
  l.foldl (fun acc x => insSorted x acc) []

/-- Insert-or-overwrite into a key-sorted association list: the model of
`BTreeMap<NodeIdx, BTreeSet<NodeIdx>>::insert` (and of `extend`, which
overwrites existing keys). -/
def mapInsertOver (k : Nat) (v : List Nat) : List (Nat × List Nat) → List (Nat × List Nat)
  | [] => [(k, v)]
  | (k', v') :: rest =>
    if k < k' then (k, v) :: (k', v') :: rest
    else if k = k' then (k, v) :: rest
    else (k', v') :: mapInsertOver k v rest

/-- `BTreeMap::extend`: insert every pair of `sm`, overwriting. -/
def mapExtend (m sm : List (Nat × List Nat)) : List (Nat × List Nat) :=
  sm.foldl (fun acc p => mapInsertOver p.1 p.2 acc) m

/-- `Search::search_for_ancestor` (`src/context/analyzer.rs` lines 174-184):
depth-first over outgoing edges, returning the target of the first edge of
the requested kind.  Fueled: the Rust recursion terminates on the acyclic
graph. -/
def Analyzer.search_for_ancestor : Nat → Analyzer → Nat → Edge → Option Nat
  | 0, _, _, _ => none
  | fuel+1, a, start, ety =>
    let out := a.edges.filter (fun e => e.src = start)
    match out.find? (fun e => e.w = ety) with
    | some e => some e.tgt
    | none => (out.filterMap (fun e => Analyzer.search_for_ancestor fuel a e.tgt ety)).head?

/-- `Search::search_children` (lines 190-202): traverse every incoming edge
recursively, collecting the sources of edges of the requested kind into a
`BTreeSet` (here: a sorted duplicate-free list). -/
def Analyzer.search_children : Nat → Analyzer → Nat → Edge → List Nat
  | 0, _, _, _ => []
  | fuel+1, a, start, ety =>
    let inc := a.edges.filter (fun e => e.tgt = start)
    let this_children := inc.filterMap (fun e => if e.w = ety then some e.src else none)
    sortDedup (this_children ++ inc.flatMap (fun e => Analyzer.search_children fuel a e.src ety))

/-- `Search::nodes_with_children` (lines 209-230): like `search_children`
but keeping, for each node with at least one direct matching incoming edge,
the map from that node to its direct matching sources.  Returns `none` for
an empty map, as the Rust code does (fuel exhaustion also yields `none`, a
model artifact never reached with fuel above the graph size). -/
def Analyzer.nodes_with_children : Nat → Analyzer → Nat → Edge → Option (List (Nat × List Nat))
  | 0, _, _, _ => none
  | fuel+1, a, start, ety =>
    let inc := a.edges.filter (fun e => e.tgt = start)
    let this_children := sortDedup (inc.filterMap (fun e => if e.w = ety then some e.src else none))
    let base : List (Nat × List Nat) := if this_children = [] then [] else [(start, this_children)]
    let m := (inc.filterMap (fun e => Analyzer.nodes_with_children fuel a e.src ety)).foldl
      (fun acc sm => mapExtend acc sm) base
    if m = [] then none else some m

/-- `ContextNode::var_by_name` (`shared/src/context/mod.rs` lines 210-225):
the first variable named `name` in the `BTreeSet` of nodes reachable through
`Variable` edges (ascending index order, `.take(1).next()`).  The Rust code
panics when a reached node is not a `ContextVar`; such nodes simply fail the
name test here. -/
def Analyzer.var_by_name (fuel : Nat) (a : Analyzer) (i : Nat) (name : String) : Option Nat :=
  ((Analyzer.search_children fuel a i (Edge.context ContextEdge.Variable)).filter
    (fun n => match a.node n with
      | Node.contextVar v => v.name = name
      | _ => false)).head?

/-- The unique newer version of a variable, if any: the source of an
incoming `Prev` edge (advancing within a context links the new node to its
predecessor by `new --Prev--> old`). -/
def Analyzer.prevSuccessor (a : Analyzer) (v : Nat) : Option Nat :=
  (a.edges.find? (fun e => e.w = Edge.context ContextEdge.Prev && e.tgt = v)).map (fun e => e.src)

/-- Modelled from the spec: `ContextVarNode::latest_version`
(`shared/src/context/var.rs`, which is not under `src/`).  The spec's
variable model says every update "creates a new node linked to its
predecessor" and that a latest-version query "must return the most recently
created node reachable from that context"; we model the query as chasing
incoming `Prev` (previous-version) edges from the found variable until no
newer version exists.  Fueled for the same acyclicity reason as the search
primitives. -/
def Analyzer.latest_version : Nat → Analyzer → Nat → Nat
  | 0, _, v => v
  | fuel+1, a, v =>
    match a.prevSuccessor v with
    | some nxt => Analyzer.latest_version fuel a nxt
    | none => v

/-- `ContextNode::latest_var_by_name` (lines 251-261): `var_by_name` then
`latest_version`. -/
def Analyzer.latest_var_by_name (fuel : Nat) (a : Analyzer) (i : Nat) (name : String) : Option Nat :=
  (a.var_by_name fuel i name).map (fun v => Analyzer.latest_version fuel a v)

/-- Modelled from the spec: `ContextVarNode::maybe_ctx`
(`shared/src/context/var.rs`, not under `src/`).  The spec says "a variable
is connected to the context that currently owns it via a membership edge";
we resolve the owner as the first context reachable from the variable along
outgoing edges through a membership (`Variable`) edge, i.e. with the
`search_for_ancestor` primitive of `src/context/analyzer.rs`. -/
def Analyzer.maybe_ctx (fuel : Nat) (a : Analyzer) (v : Nat) : Option Nat :=
  Analyzer.search_for_ancestor fuel a v (Edge.context ContextEdge.Variable)

/-- Modelled from the spec: `ContextVarNode::range`
(`shared/src/context/var.rs`, not under `src/`).  Per the spec's type
taxonomy, a builtin-typed variable carries an "optional attached range";
`range` reads it. -/
def Analyzer.range (a : Analyzer) (v : Nat) : Option SRange :=
  match (a.varOf v).ty with
  | VarType.builtIn _ r => r
  | _ => none

/-- Write back a variable payload (used by the range mutators below). -/
def Analyzer.setVar (a : Analyzer) (i : Nat) (v : ContextVar) : Analyzer :=
  match a.nodes.getD i (Node.other 0) with
  | Node.contextVar _ => { a with nodes := a.nodes.set i (Node.contextVar v) }
  | _ => a

/-- Modelled from the spec: `ContextVarNode::set_range_min`
(`shared/src/context/var.rs`, not under `src/`): the range collaborator's
`set_range_min` mutator updates the min bound of the builtin type's attached
range (attaching a fresh range when none is present; `assign` always sets
min and max back to back, so the placeholder max is immediately overwritten). -/
def Analyzer.set_range_min (a : Analyzer) (i : Nat) (e : RElem) : Analyzer :=
  match (a.varOf i).ty with
  | VarType.builtIn b (some r) =>
    a.setVar i { a.varOf i with ty := VarType.builtIn b (some { r with min := e }) }
  | VarType.builtIn b none =>
    a.setVar i { a.varOf i with ty := VarType.builtIn b (some { min := e, max := e }) }
  | _ => a

/-- Modelled from the spec: `ContextVarNode::set_range_max`, the max-side
counterpart of `set_range_min`. -/
def Analyzer.set_range_max (a : Analyzer) (i : Nat) (e : RElem) : Analyzer :=
  match (a.varOf i).ty with
  | VarType.builtIn b (some r) =>
    a.setVar i { a.varOf i with ty := VarType.builtIn b (some { r with max := e }) }
  | VarType.builtIn b none =>
    a.setVar i { a.varOf i with ty := VarType.builtIn b (some { min := e, max := e }) }
  | _ => a

/-- `ExprRet` (`src/context/mod.rs` lines 19-25): the path-sensitive result
of evaluating one expression. -/
inductive ExprRet
  | CtxKilled
  | Single (ctx : Nat) (node : Nat)
  | Multi (rets : List ExprRet)
  | Fork (w1 w2 : ExprRet)

/-- `ContextBuilder::advance_var_in_ctx` (`src/context/mod.rs` lines
646-671): clone the variable with the new location, insert it, then link it
by one of the two edge policies: a membership (`Variable`) edge into `ctx`
when the previous owning context differs from `ctx`, otherwise a
previous-version (`Prev`) edge to the predecessor node. -/
def Analyzer.advance_var_in_ctx (fuel : Nat) (a : Analyzer) (cvar_node : Nat) (loc : Loc)
    (ctx : Nat) : Analyzer × Nat :=
  let new_cvar := { a.varOf cvar_node with loc := some loc }
  let p := a.addNode (Node.contextVar new_cvar)
  let a2 := p.1
  let new_cvarnode := p.2
  match a2.maybe_ctx fuel cvar_node with
  | some old_ctx =>
    if old_ctx ≠ ctx then
      (a2.addEdge new_cvarnode ctx (Edge.context ContextEdge.Variable), new_cvarnode)
    else
      (a2.addEdge new_cvarnode cvar_node (Edge.context ContextEdge.Prev), new_cvarnode)
  | none =>
    (a2.addEdge new_cvarnode cvar_node (Edge.context ContextEdge.Prev), new_cvarnode)

/-- `ContextBuilder::assign` (`src/context/mod.rs` lines 619-644): take the
RHS's range bounds when it has a range; otherwise, when only the LHS has
one, install lazy `Dynamic` bounds pointing at the RHS node's own min/max;
when neither side has a range the Rust code panics (here `Except.error` with
the panic message).  Always advances the LHS to a new SSA version before
installing the bounds. -/
def Analyzer.assign (fuel : Nat) (a : Analyzer) (loc : Loc) (lhs_cvar rhs_cvar : Nat)
    (ctx : Nat) : Except String (Analyzer × ExprRet) :=
  match
    (match a.range rhs_cvar with
     | some range => some (range.min, range.max)
     | none =>
       match a.range lhs_cvar with
       | some _ =>
         some (RElem.dynamic rhs_cvar DynSide.Min loc, RElem.dynamic rhs_cvar DynSide.Max loc)
       | none => none) with
  | none => Except.error "in assign, both lhs and rhs had no range"
  | some bounds =>
    let p := a.advance_var_in_ctx fuel lhs_cvar loc ctx
    let a2 := p.1
    let new_lhs := p.2
    let a3 := a2.set_range_min new_lhs bounds.1
    let a4 := a3.set_range_max new_lhs bounds.2
    Except.ok (a4, ExprRet.Single ctx new_lhs)

/-- Sequential state-threading map: the model of the Rust pattern
`sides.iter().map(|s| self.match_assign_sides(..)).collect()`, where `self`
is threaded through the iterations in order and a panic aborts the whole
run. -/
def exceptMapAccum {α : Type} (recf : Analyzer → α → Except String (Analyzer × ExprRet)) :
    Analyzer → List α → Except String (Analyzer × List ExprRet)
  | a, [] => Except.ok (a, [])
  | a, x :: xs =>
    match recf a x with
    | Except.error e => Except.error e
    | Except.ok (a2, out) =>
      match exceptMapAccum recf a2 xs with
      | Except.error e => Except.error e
      | Except.ok (a3, outs) => Except.ok (a3, out :: outs)

/-- `ContextBuilder::match_assign_sides` (`src/context/mod.rs` lines
547-617), case for case.  The structural recursion over the two `ExprRet`
trees is run on explicit fuel (always sufficient at `sizeOf lhs + sizeOf
rhs`); the final Rust `todo!("any: ..")` catch-all becomes an error. -/
def Analyzer.match_assign_sides : Nat → Analyzer → Loc → ExprRet → ExprRet → Nat →
    Except String (Analyzer × ExprRet)
  | 0, _, _, _, _, _ => Except.error "recursion fuel exhausted"
  | fuel+1, a, loc, lhs_paths, rhs_paths, ctx =>
    match lhs_paths, rhs_paths with
    | ExprRet.Single _lhs_ctx lhs, ExprRet.Single rhs_ctx rhs =>
      a.assign fuel loc lhs rhs rhs_ctx
    | ExprRet.Single lc ln, ExprRet.Multi rhs_sides =>
      match exceptMapAccum
          (fun a2 r => Analyzer.match_assign_sides fuel a2 loc (ExprRet.Single lc ln) r ctx)
          a rhs_sides with
      | Except.error e => Except.error e
      | Except.ok (a2, outs) => Except.ok (a2, ExprRet.Multi outs)
    | ExprRet.Multi lhs_sides, ExprRet.Single rc rn =>
      match exceptMapAccum
          (fun a2 l => Analyzer.match_assign_sides fuel a2 loc l (ExprRet.Single rc rn) ctx)
          a lhs_sides with
      | Except.error e => Except.error e
      | Except.ok (a2, outs) => Except.ok (a2, ExprRet.Multi outs)
    | ExprRet.Multi lhs_sides, ExprRet.Multi rhs_sides =>
      if lhs_sides.length = rhs_sides.length then
        match exceptMapAccum
            (fun a2 p => Analyzer.match_assign_sides fuel a2 loc p.1 p.2 ctx)
            a (lhs_sides.zip rhs_sides) with
        | Except.error e => Except.error e
        | Except.ok (a2, outs) => Except.ok (a2, ExprRet.Multi outs)
      else
        match exceptMapAccum
            (fun a2 r => Analyzer.match_assign_sides fuel a2 loc (ExprRet.Multi lhs_sides) r ctx)
            a rhs_sides with
        | Except.error e => Except.error e
        | Except.ok (a2, outs) => Except.ok (a2, ExprRet.Multi outs)
    | ExprRet.Fork lhs_world1 lhs_world2, ExprRet.Fork rhs_world1 rhs_world2 =>
      match Analyzer.match_assign_sides fuel a loc lhs_world1 rhs_world1 ctx with
      | Except.error e => Except.error e
      | Except.ok (a1, w11) =>
        match Analyzer.match_assign_sides fuel a1 loc lhs_world1 rhs_world2 ctx with
        | Except.error e => Except.error e
        | Except.ok (a2, w12) =>
          match Analyzer.match_assign_sides fuel a2 loc lhs_world2 rhs_world1 ctx with
          | Except.error e => Except.error e
          | Except.ok (a3, w21) =>
            match Analyzer.match_assign_sides fuel a3 loc lhs_world2 rhs_world2 ctx with
            | Except.error e => Except.error e
            | Except.ok (a4, w22) =>
              Except.ok (a4, ExprRet.Fork (ExprRet.Fork w11 w12) (ExprRet.Fork w21 w22))
    | ExprRet.Single lc ln, ExprRet.Fork world1 world2 =>
      match Analyzer.match_assign_sides fuel a loc (ExprRet.Single lc ln) world1 ctx with
      | Except.error e => Except.error e
      | Except.ok (a1, w1) =>
        match Analyzer.match_assign_sides fuel a1 loc (ExprRet.Single lc ln) world2 ctx with
        | Except.error e => Except.error e
        | Except.ok (a2, w2) => Except.ok (a2, ExprRet.Fork w1 w2)
    | ExprRet.Multi ms, ExprRet.Fork world1 world2 =>
      match Analyzer.match_assign_sides fuel a loc (ExprRet.Multi ms) world1 ctx with
      | Except.error e => Except.error e
      | Except.ok (a1, w1) =>
        match Analyzer.match_assign_sides fuel a1 loc (ExprRet.Multi ms) world2 ctx with
        | Except.error e => Except.error e
        | Except.ok (a2, w2) => Except.ok (a2, ExprRet.Fork w1 w2)
    | _, _ => Except.error "todo any"

/-- `ContextBuilder::parse_ctx_expr` (`src/context/mod.rs` lines 379-396):
the uniform dispatch wrapper around expression evaluation.  The inner
dispatch by syntactic kind (`parse_ctx_expr_inner`) is a parameter, so the
wrapper's law is stated once for every expression.  Note the fork branch of
the source recurses into `parse_ctx_expr` per live fork, drops the per-fork
results, and returns `ExprRet::Multi(vec![])`. -/
def parse_ctx_expr (inner : Analyzer → Nat → Analyzer × ExprRet) (fuel : Nat) (a : Analyzer)
    (ctx : Nat) : Analyzer × ExprRet :=
  if a.isKilled ctx then (a, ExprRet.CtxKilled)
  else if (a.liveForks ctx).isEmpty then inner a ctx
  else
    match fuel with
    | 0 => (a, ExprRet.Multi [])
    | f+1 =>
      ((a.liveForks ctx).foldl (fun acc fork_ctx => (parse_ctx_expr inner f acc fork_ctx).1) a,
        ExprRet.Multi [])

/-- `ContextBuilder::parse_ctx_statement` (`src/context/mod.rs` lines
46-75): when the parent node is a context, return immediately if it is
killed, else apply the inner statement handler (`parse_ctx_stmt_inner`, a
parameter here) directly when there are no live forks, and otherwise apply
the inner handler once per live fork.  Non-context parents and a missing
parent go straight to the inner handler. -/
def parse_ctx_statement (inner : Analyzer → Option Nat → Analyzer) (a : Analyzer)
    (parent_ctx : Option Nat) : Analyzer :=
  match parent_ctx with
  | some parent =>
    match a.node parent with
    | Node.context _ =>
      if a.isKilled parent then a
      else if (a.liveForks parent).isEmpty then inner a (some parent)
      else (a.liveForks parent).foldl (fun acc fork_ctx => inner acc (some fork_ctx)) a
    | _ => inner a (some parent)
  | none => inner a none

/-- The `Expression::Type` branch of `parse_ctx_expr_inner`
(`src/context/mod.rs` lines 466-478): look the builtin up in the registry,
inserting a fresh `Node::Builtin` on a miss, and yield it as a `Single`.
Used as a concrete, graph-mutating inner evaluator in counterexamples. -/
def parse_type_expr (a : Analyzer) (ctx : Nat) (b : Nat) : Analyzer × ExprRet :=
  match a.builtins.lookup b with
  | some idx => (a, ExprRet.Single ctx idx)
  | none =>
    let p := a.addNode (Node.builtin b)
    ({ p.1 with builtins := p.1.builtins ++ [(b, p.2)] }, ExprRet.Single ctx p.2)

/-- `Relative` (`src/context/analyzer.rs` lines 18-25). -/
inductive Relative
  | Eq
  | Lt
  | Lte
  | Gt
  | Gte
deriving DecidableEq, Repr

/-- `RelativeTarget` (lines 40-44): a concrete value or a dynamic reference
to a node, to be resolved later by range lookups. -/
inductive RelativeTarget
  | Concrete (c : Concrete)
  | Dynamic (idx : Nat)
deriving DecidableEq, Repr

/-- `Analysis` (lines 46-49). -/
inductive Analysis
  | Relative (rel : Relative) (target : RelativeTarget)
deriving DecidableEq, Repr

/-- `ArrayAccess` (lines 84-88): which bound of the array length a record
constrains. -/
inductive ArrayAccessKind
  | MinSize
  | MaxSize
deriving DecidableEq, Repr

/-- `ArrayAccessAnalysis` (lines 90-97); `LocSpan` is the `Loc` itself. -/
structure ArrayAccessAnalysis where
  arr_def : Nat
  arr_loc : Loc
  access_loc : Loc
  analysis : Analysis
  analysis_ty : ArrayAccessKind
deriving DecidableEq, Repr

/-- The per-`(array, access)` body of
`ArrayAccessAnalyzer::min_size_to_prevent_access_revert`
(`src/context/analyzer.rs` lines 239-281): resolve the `Index` child of the
access, read the index variable, and build one minimum-size record by the
index variable's type; every `panic!`/`expect` of the source becomes an
`Except.error` carrying its message.  The array's span is read from the
array variable's `loc` (the `ContextVarNode::loc` accessor of `var.rs`,
modelled from the spec as the unwrapped `loc` field), and the record's
access span is the index variable's `loc`, exactly as in the source. -/
def Analyzer.analysisForAccess (fuel : Nat) (a : Analyzer) (array access : Nat) :
    Except String ArrayAccessAnalysis :=
  match (a.search_children fuel access (Edge.context ContextEdge.Index)).head? with
  | none => Except.error "IndexAccess without Index"
  | some cvar_idx =>
    match a.node cvar_idx with
    | Node.contextVar cvar =>
      match a.node array with
      | Node.contextVar arr_var =>
        match arr_var.loc with
        | none => Except.error "No loc for array"
        | some arr_loc =>
          match cvar.loc with
          | none => Except.error "No loc for access"
          | some access_loc =>
            match cvar.ty with
            | VarType.concreteTy conc_node =>
              match a.node conc_node with
              | Node.concrete (Concrete.uint size val) =>
                Except.ok
                  { arr_def := array, arr_loc := arr_loc, access_loc := access_loc
                    analysis := Analysis.Relative Relative.Gt
                      (RelativeTarget.Concrete (Concrete.uint size val))
                    analysis_ty := ArrayAccessKind.MinSize }
              | Node.concrete _ =>
                Except.error "Attempt to index into an array with a non-uint concrete"
              | _ => Except.error "Node type confusion: expected node to be Concrete"
            | VarType.builtIn _ (some _) =>
              Except.ok
                { arr_def := array, arr_loc := arr_loc, access_loc := access_loc
                  analysis := Analysis.Relative Relative.Gt (RelativeTarget.Dynamic cvar_idx)
                  analysis_ty := ArrayAccessKind.MinSize }
            | VarType.builtIn _ none =>
              Except.ok
                { arr_def := array, arr_loc := arr_loc, access_loc := access_loc
                  analysis := Analysis.Relative Relative.Gt (RelativeTarget.Dynamic access)
                  analysis_ty := ArrayAccessKind.MinSize }
            | _ => Except.error "Attempt to index into an array with this type"
      | _ => Except.error "Node type confusion: expected node to be ContextVar"
    | _ => Except.error "Node type confusion: expected node to be ContextVar"

/-- The `accesses.iter().map(..)` loop of `min_size_to_prevent_access_revert`
for one array. -/
def Analyzer.analysesForAccesses (fuel : Nat) (a : Analyzer) (array : Nat) :
    List Nat → Except String (List ArrayAccessAnalysis)
  | [] => Except.ok []
  | access :: rest =>
    match a.analysisForAccess fuel array access with
    | Except.error e => Except.error e
    | Except.ok r =>
      match a.analysesForAccesses fuel array rest with
      | Except.error e => Except.error e
      | Except.ok rs => Except.ok (r :: rs)

/-- The outer `arrays.iter().flat_map(..)` loop of
`min_size_to_prevent_access_revert`. -/
def Analyzer.analysesForArrays (fuel : Nat) (a : Analyzer) :
    List (Nat × List Nat) → Except String (List ArrayAccessAnalysis)
  | [] => Except.ok []
  | (array, accesses) :: rest =>
    match a.analysesForAccesses fuel array accesses with
    | Except.error e => Except.error e
    | Except.ok rs =>
      match a.analysesForArrays fuel rest with
      | Except.error e => Except.error e
      | Except.ok rest_rs => Except.ok (rs ++ rest_rs)

/-- `ArrayAccessAnalyzer::min_size_to_prevent_access_revert`
(`src/context/analyzer.rs` lines 234-287): group index accesses under the
finished context with `nodes_with_children`, then emit one record per
`(array, access)` pair. -/
def Analyzer.min_size_to_prevent_access_revert (fuel : Nat) (a : Analyzer) (ctx : Nat) :
    Except String (List ArrayAccessAnalysis) :=
  match a.nodes_with_children fuel ctx (Edge.context ContextEdge.IndexAccess) with
  | none => Except.ok []
  | some arrays => a.analysesForArrays fuel arrays

/-- The maximal chain of ancestors, starting at `i`, every one of which is a
context with an empty `forks` list (so the `all forks ended` test of
`end_if_all_forks_ended` is vacuously true at each of them). -/
def Analyzer.forklessChain : Nat → Analyzer → Nat → List Nat
  | 0, _, _ => []
  | fuel+1, a, i =>
    match a.node i with
    | Node.context c =>
      if c.forks = [] then
        i :: (match c.parent_ctx with
              | some p => Analyzer.forklessChain fuel a p
              | none => [])
      else []
    | _ => []

theorem lt_length_of_node_context {a : Analyzer} {x : Nat} {c : Context}
    (h : a.node x = Node.context c) : x < a.nodes.length := by
  by_contra hge
  have : a.nodes.getD x (Node.other 0) = Node.other 0 := by
    simp [List.getD, List.getElem?_eq_none (Nat.le_of_not_lt hge)]
  rw [Analyzer.node, this] at h
  exact Node.noConfusion h

theorem setKilled_of_not_context {a : Analyzer} {x : Nat} (loc : Loc)
    (h : ∀ c, a.nodes.getD x (Node.other 0) ≠ Node.context c) :
    a.setKilled x loc = a := by
  rw [Analyzer.setKilled]
  cases hx : a.nodes.getD x (Node.other 0) with
  | context c => exact absurd hx (h c)
  | contextVar v => rfl
  | builtin b => rfl
  | concrete c => rfl
  | function n => rfl
  | other t => rfl

theorem setKilled_node_cases (a : Analyzer) (x j : Nat) (loc : Loc) :
    (a.setKilled x loc).node j = a.node j ∨
      (j = x ∧ ∃ c, a.node j = Node.context c ∧
        (a.setKilled x loc).node j = Node.context { c with killed := some loc }) := by
  cases hx : a.nodes.getD x (Node.other 0) with
  | context c =>
    have hlt : x < a.nodes.length := lt_length_of_node_context (c := c) hx
    have hset : a.setKilled x loc =
        { a with nodes := a.nodes.set x (Node.context { c with killed := some loc }) } := by
      rw [Analyzer.setKilled, hx]
    by_cases hjx : j = x
    · subst hjx
      right
      refine ⟨rfl, c, hx, ?_⟩
      rw [hset]
      simp [Analyzer.node, List.getD, List.getElem?_set_eq_of_lt _ hlt]
    · left
      rw [hset]
      simp [Analyzer.node, List.getD, List.getElem?_set_ne (fun h => hjx h.symm)]
  | contextVar v => left; rw [setKilled_of_not_context loc (by rw [hx]; intro c h; exact Node.noConfusion h)]
  | builtin b => left; rw [setKilled_of_not_context loc (by rw [hx]; intro c h; exact Node.noConfusion h)]
  | concrete c => left; rw [setKilled_of_not_context loc (by rw [hx]; intro c h; exact Node.noConfusion h)]
  | function n => left; rw [setKilled_of_not_context loc (by rw [hx]; intro c h; exact Node.noConfusion h)]
  | other t => left; rw [setKilled_of_not_context loc (by rw [hx]; intro c h; exact Node.noConfusion h)]

theorem ctxOf_setKilled_forks (a : Analyzer) (x j : Nat) (loc : Loc) :
    ((a.setKilled x loc).ctxOf j).forks = (a.ctxOf j).forks := by
  rcases setKilled_node_cases a x j loc with h | ⟨_, c, h1, h2⟩
  · rw [Analyzer.ctxOf, Analyzer.ctxOf, h]
  · rw [Analyzer.ctxOf, Analyzer.ctxOf, h1, h2]

theorem ctxOf_setKilled_parent (a : Analyzer) (x j : Nat) (loc : Loc) :
    ((a.setKilled x loc).ctxOf j).parent_ctx = (a.ctxOf j).parent_ctx := by
  rcases setKilled_node_cases a x j loc with h | ⟨_, c, h1, h2⟩
  · rw [Analyzer.ctxOf, Analyzer.ctxOf, h]
  · rw [Analyzer.ctxOf, Analyzer.ctxOf, h1, h2]

theorem ctxOf_setKilled_self_killed {a : Analyzer} {x : Nat} {c : Context} (loc : Loc)
    (h : a.node x = Node.context c) :
    ((a.setKilled x loc).ctxOf x).killed = some loc := by
  have hlt := lt_length_of_node_context h
  have hset : a.setKilled x loc =
      { a with nodes := a.nodes.set x (Node.context { c with killed := some loc }) } := by
    rw [Analyzer.setKilled]
    rw [Analyzer.node] at h
    rw [h]
  rw [hset]
  simp [Analyzer.ctxOf, Analyzer.node, List.getD, List.getElem?_set_eq_of_lt _ hlt]

theorem end_if_preserves_killed (fuel : Nat) :
    ∀ (a : Analyzer) (i : Nat) (loc : Loc) (j : Nat),
      (a.ctxOf j).killed = some loc →
      ((Analyzer.end_if_all_forks_ended fuel a i loc).ctxOf j).killed = some loc := by
  induction fuel with
  | zero => intro a i loc j h; exact h
  | succ f ih =>
    intro a i loc j h
    rw [Analyzer.end_if_all_forks_ended]
    by_cases hc : ((a.ctxOf i).forks.all fun f => a.isEnded f) = true
    · rw [if_pos hc]
      have h2 : ((a.setKilled i loc).ctxOf j).killed = some loc := by
        rcases setKilled_node_cases a i j loc with h' | ⟨_, c, h1, h2⟩
        · rw [Analyzer.ctxOf, h']; rw [Analyzer.ctxOf] at h; exact h
        · rw [Analyzer.ctxOf, h2]
      cases hp : (a.ctxOf i).parent_ctx with
      | some p => exact ih _ p loc j h2
      | none => exact h2
    · rw [if_neg hc]; exact h

theorem forklessChain_setKilled (fuel : Nat) :
    ∀ (a : Analyzer) (x : Nat) (loc : Loc) (i : Nat),
      (a.setKilled x loc).forklessChain fuel i = a.forklessChain fuel i := by
  induction fuel with
  | zero => intro a x loc i; rfl
  | succ f ih =>
    intro a x loc i
    rw [Analyzer.forklessChain, Analyzer.forklessChain]
    rcases setKilled_node_cases a x i loc with h | ⟨_, c, h1, h2⟩
    · rw [h]
      cases hn : a.node i with
      | context c => simp only [ih]
      | contextVar v => rfl
      | builtin b => rfl
      | concrete c => rfl
      | function n => rfl
      | other t => rfl
    · rw [h1, h2]
      simp only [ih]

theorem end_if_kills_forkless_chain (fuel : Nat) :
    ∀ (a : Analyzer) (i : Nat) (loc : Loc) (q : Nat),
      q ∈ a.forklessChain fuel i →
      ((Analyzer.end_if_all_forks_ended fuel a i loc).ctxOf q).killed = some loc := by
  induction fuel with
  | zero => intro a i loc q h; exact absurd h (List.not_mem_nil q)
  | succ f ih =>
    intro a i loc q hq
    rw [Analyzer.forklessChain] at hq
    cases hn : a.node i with
    | context c =>
      simp only [hn] at hq
      by_cases hf : c.forks = []
      · rw [if_pos hf] at hq
        have hctx : a.ctxOf i = c := by rw [Analyzer.ctxOf, hn]
        have hcond : ((a.ctxOf i).forks.all fun f => a.isEnded f) = true := by
          rw [hctx, hf]; rfl
        rw [Analyzer.end_if_all_forks_ended, if_pos hcond, hctx]
        rcases List.mem_cons.mp hq with hqi | hqrest
        · subst hqi
          have hk : ((a.setKilled q loc).ctxOf q).killed = some loc :=
            ctxOf_setKilled_self_killed loc hn
          cases hp : c.parent_ctx with
          | some p =>
            simp only [hp]
            exact end_if_preserves_killed f _ p loc q hk
          | none => simp only [hp]; exact hk
        · cases hp : c.parent_ctx with
          | some p =>
            simp only [hp] at hqrest
            simp only [hp]
            have hmem : q ∈ (a.setKilled i loc).forklessChain f p := by
              rw [forklessChain_setKilled f a i loc p]; exact hqrest
            exact ih _ p loc q hmem
          | none => simp only [hp] at hqrest; exact absurd hqrest (List.not_mem_nil q)
      · rw [if_neg hf] at hq; exact absurd hq (List.not_mem_nil q)
    | contextVar v => simp only [hn] at hq; exact absurd hq (List.not_mem_nil q)
    | builtin b => simp only [hn] at hq; exact absurd hq (List.not_mem_nil q)
    | concrete c => simp only [hn] at hq; exact absurd hq (List.not_mem_nil q)
    | function n => simp only [hn] at hq; exact absurd hq (List.not_mem_nil q)
    | other t => simp only [hn] at hq; exact absurd hq (List.not_mem_nil q)

/-- A function-entry context with three forks, at node index 0; the three
forks are nodes 1, 2, 3. -/
def c1Parent : Context :=
  { Context.empty with path := "fn", forks := [1, 2, 3] }

/-- A live fork of `c1Parent`. -/
def c1Fork : Context :=
  { Context.empty with parent_ctx := some 0, is_fork := true }

/-- The three-fork test state for kill propagation. -/
def c1S0 : Analyzer :=
  { nodes := [Node.context c1Parent, Node.context c1Fork, Node.context c1Fork,
      Node.context c1Fork]
    edges := [], builtins := [] }

/-- After killing the first fork. -/
def c1S1 : Analyzer := c1S0.kill 9 1 101

/-- After also killing the second fork. -/
def c1S2 : Analyzer := c1S1.kill 9 2 102

/-- After also killing the third fork. -/
def c1S3 : Analyzer := c1S2.kill 9 3 103

/-- C1.  Kill propagation: after `kill(loc)` on context `i`, `i`'s `killed`
field equals `loc`; the parent becomes killed at the same location if every
one of its forks is ended at that moment, and when some fork is still live
the whole propagation stops (nothing beyond setting `i`'s own `killed`
changes).  Concretely, in a 3-fork family the parent is killed exactly when
the third fork is killed — not after the first or second — so a parent with
a remaining live fork is never killed by its other forks dying. -/
theorem c1_kill_propagation (fuel : Nat) (a : Analyzer) (i p : Nat) (loc : Loc)
    (ci cp : Context)
    (hi : a.node i = Node.context ci)
    (hp : ci.parent_ctx = some p)
    (hpc : a.node p = Node.context cp) :
    ((a.kill (fuel+1) i loc).ctxOf i).killed = some loc
    ∧ ((((a.setKilled i loc).ctxOf p).forks.all fun f => (a.setKilled i loc).isEnded f) = true →
        ((a.kill (fuel+1) i loc).ctxOf p).killed = some loc)
    ∧ ((((a.setKilled i loc).ctxOf p).forks.all fun f => (a.setKilled i loc).isEnded f) = false →
        a.kill (fuel+1) i loc = a.setKilled i loc)
    ∧ (c1S1.ctxOf 0).killed = none
    ∧ (c1S2.ctxOf 0).killed = none
    ∧ (c1S3.ctxOf 0).killed = some 103 := by
  have hpar : ((a.setKilled i loc).ctxOf i).parent_ctx = some p := by
    rw [ctxOf_setKilled_parent, Analyzer.ctxOf, hi]; exact hp
  have hkill : a.kill (fuel+1) i loc =
      Analyzer.end_if_all_forks_ended (fuel+1) (a.setKilled i loc) p loc := by
    simp only [Analyzer.kill, hpar]
  refine ⟨?_, ?_, ?_, by decide, by decide, by decide⟩
  · rw [hkill]
    exact end_if_preserves_killed (fuel+1) _ p loc i (ctxOf_setKilled_self_killed loc hi)
  · intro hcond
    rw [hkill, Analyzer.end_if_all_forks_ended, if_pos hcond]
    have ha1p : ∃ cp', (a.setKilled i loc).node p = Node.context cp' := by
      rcases setKilled_node_cases a i p loc with h | ⟨_, c, h1, h2⟩
      · exact ⟨cp, by rw [h]; exact hpc⟩
      · exact ⟨_, h2⟩
    obtain ⟨cp', hcp'⟩ := ha1p
    have hk : (((a.setKilled i loc).setKilled p loc).ctxOf p).killed = some loc :=
      ctxOf_setKilled_self_killed loc hcp'
    cases hpp : ((a.setKilled i loc).ctxOf p).parent_ctx with
    | some pp =>
      simp only [hpp]
      exact end_if_preserves_killed fuel _ pp loc p hk
    | none => simp only [hpp]; exact hk
  · intro hcond
    rw [hkill, Analyzer.end_if_all_forks_ended, if_neg (by simp [hcond])]

/-- Witness for C1: killing the third (last live) fork of `c1S2` kills the
parent at the same location. -/
theorem c1_kill_propagation_witness :
    ((c1S2.kill 9 3 103).ctxOf 0).killed = some 103 :=
  (c1_kill_propagation 8 c1S2 3 0 103 c1Fork c1Parent (by decide) rfl (by decide)).2.1
    (by decide)

/-- A fork-less root context whose only relationship is a (non-fork) child. -/
def c10Root : Context := { Context.empty with children := [1] }

/-- A fork-less middle context with two non-fork children (2 and 3). -/
def c10Mid : Context := { Context.empty with parent_ctx := some 0, children := [2, 3] }

/-- The fork-less leaf context that gets killed. -/
def c10Leaf : Context := { Context.empty with parent_ctx := some 1 }

/-- A live sibling child of the middle context: it does not stop the kill,
because `end_if_all_forks_ended` only inspects `forks`, never `children`. -/
def c10Live : Context := { Context.empty with parent_ctx := some 1 }

/-- Test state for C10: `0 ← 1 ← 2` all fork-less, with live sibling 3. -/
def c10S : Analyzer :=
  { nodes := [Node.context c10Root, Node.context c10Mid, Node.context c10Leaf,
      Node.context c10Live]
    edges := [], builtins := [] }

/-- C10.  With an empty `forks` list the `all forks ended` test of
`end_if_all_forks_ended` is vacuously true, so the context is killed
unconditionally (first conjunct); consequently `kill` on a non-fork
subcontext kills every member of the fork-less ancestor chain starting at
its parent — the statement carries no hypothesis whatsoever about the
parents' `children`, so other (even live) children are irrelevant. -/
theorem c10_forkless_chain_killed (fuel : Nat) (a : Analyzer) (i p : Nat) (loc : Loc)
    (ci : Context)
    (hi : a.node i = Node.context ci)
    (hp : ci.parent_ctx = some p) :
    (ci.forks = [] →
      ((Analyzer.end_if_all_forks_ended (fuel+1) a i loc).ctxOf i).killed = some loc)
    ∧ (∀ q, q ∈ a.forklessChain (fuel+1) p →
        ((a.kill (fuel+1) i loc).ctxOf q).killed = some loc)
    ∧ (∀ cp, a.node p = Node.context cp → cp.forks = [] →
        ((a.kill (fuel+1) i loc).ctxOf p).killed = some loc) := by
  have hpar : ((a.setKilled i loc).ctxOf i).parent_ctx = some p := by
    rw [ctxOf_setKilled_parent, Analyzer.ctxOf, hi]; exact hp
  have hkill : a.kill (fuel+1) i loc =
      Analyzer.end_if_all_forks_ended (fuel+1) (a.setKilled i loc) p loc := by
    simp only [Analyzer.kill, hpar]
  have hchain : ∀ q, q ∈ a.forklessChain (fuel+1) p →
      ((a.kill (fuel+1) i loc).ctxOf q).killed = some loc := by
    intro q hq
    rw [hkill]
    have hq' : q ∈ (a.setKilled i loc).forklessChain (fuel+1) p := by
      rw [forklessChain_setKilled (fuel+1) a i loc p]; exact hq
    exact end_if_kills_forkless_chain (fuel+1) _ p loc q hq'
  refine ⟨?_, hchain, ?_⟩
  · intro hf
    have hmem : i ∈ a.forklessChain (fuel+1) i := by
      rw [Analyzer.forklessChain, hi]
      simp only [if_pos hf]
      exact List.mem_cons_self i _
    exact end_if_kills_forkless_chain (fuel+1) a i loc i hmem
  · intro cp hcp hcf
    apply hchain
    rw [Analyzer.forklessChain, hcp]
    simp only [if_pos hcf]
    exact List.mem_cons_self p _

/-- Witness for C10: killing the fork-less leaf 2 kills the whole fork-less
chain `1, 0`, although context 1 still has the live child 3. -/
theorem c10_forkless_chain_killed_witness :
    ((c10S.kill 9 2 77).ctxOf 1).killed = some 77
    ∧ ((c10S.kill 9 2 77).ctxOf 0).killed = some 77 :=
  ⟨(c10_forkless_chain_killed 8 c10S 2 1 77 c10Leaf (by decide) rfl).2.1 1 (by decide),
   (c10_forkless_chain_killed 8 c10S 2 1 77 c10Leaf (by decide) rfl).2.1 0 (by decide)⟩

theorem node_context_of_isKilled {a : Analyzer} {ctx : Nat} (hk : a.isKilled ctx = true) :
    ∃ c, a.node ctx = Node.context c := by
  rw [Analyzer.isKilled, Analyzer.ctxOf] at hk
  cases hn : a.node ctx with
  | context c => exact ⟨c, rfl⟩
  | contextVar v => rw [hn] at hk; simp [Context.empty] at hk
  | builtin b => rw [hn] at hk; simp [Context.empty] at hk
  | concrete c => rw [hn] at hk; simp [Context.empty] at hk
  | function n => rw [hn] at hk; simp [Context.empty] at hk
  | other t => rw [hn] at hk; simp [Context.empty] at hk

/-- A context that has returned (`ret` non-empty) but was never killed. -/
def c2Ctx : Context := { Context.empty with ret := [(5, 0)] }

/-- State with the returned-but-unkilled context at index 0 and an empty
builtin registry. -/
def c2S : Analyzer := { nodes := [Node.context c2Ctx], edges := [], builtins := [] }

/-- A concrete inner evaluator: the `Expression::Type` branch of
`parse_ctx_expr_inner` for builtin tag 7. -/
def c2Inner : Analyzer → Nat → Analyzer × ExprRet := fun a c => parse_type_expr a c 7

/-- C2 counterexample: a context whose `ret` is non-empty but whose `killed`
is unset is not terminal for the dispatchers — the type expression is
dispatched to the inner evaluator, which inserts a builtin node into the
graph (1 node before, 2 after) and yields a `Single`, not the `Killed`
result. -/
theorem c2_ret_nonempty_not_terminal :
    (c2S.ctxOf 0).ret ≠ []
    ∧ (c2S.ctxOf 0).killed = none
    ∧ (parse_ctx_expr c2Inner 1 c2S 0).2 = ExprRet.Single 0 1
    ∧ c2S.nodes.length = 1
    ∧ (parse_ctx_expr c2Inner 1 c2S 0).1.nodes.length = 2 :=
  ⟨by decide, by decide, rfl, by decide, by decide⟩

/-- C2 (amended).  Once a context's `killed` field is set, any further
statement or expression application through the dispatch wrappers is a
no-op: the state is returned unchanged and expression evaluation yields the
`CtxKilled` result — for every inner evaluator.  (A context with non-empty
`ret` but unset `killed` is not guarded: see the counterexample.) -/
theorem c2_killed_context_terminal (inner : Analyzer → Nat → Analyzer × ExprRet)
    (sInner : Analyzer → Option Nat → Analyzer) (fuel : Nat) (a : Analyzer) (ctx : Nat)
    (hk : a.isKilled ctx = true) :
    parse_ctx_expr inner fuel a ctx = (a, ExprRet.CtxKilled)
    ∧ parse_ctx_statement sInner a (some ctx) = a := by
  constructor
  · rw [parse_ctx_expr.eq_def, if_pos hk]
  · obtain ⟨c, hc⟩ := node_context_of_isKilled hk
    simp only [parse_ctx_statement, hc]
    rw [if_pos hk]

/-- Witness for C2 (amended): applying the type expression and an arbitrary
statement handler to a killed context changes nothing and yields `CtxKilled`. -/
theorem c2_killed_context_terminal_witness :
    parse_ctx_expr c2Inner 1
        { nodes := [Node.context { Context.empty with killed := some 4 }], edges := [],
          builtins := [] } 0 =
      ({ nodes := [Node.context { Context.empty with killed := some 4 }], edges := [],
          builtins := [] }, ExprRet.CtxKilled) :=
  (c2_killed_context_terminal c2Inner (fun a _ => a) 1
    { nodes := [Node.context { Context.empty with killed := some 4 }], edges := [],
      builtins := [] } 0 (by decide)).1

/-- A context with two live forks (nodes 1 and 2). -/
def c5Parent : Context := { Context.empty with forks := [1, 2] }

/-- A live fork of `c5Parent`. -/
def c5ForkCtx : Context := { Context.empty with parent_ctx := some 0, is_fork := true }

/-- Forked test state whose builtin registry already contains tag 7 at node 3. -/
def c5S : Analyzer :=
  { nodes := [Node.context c5Parent, Node.context c5ForkCtx, Node.context c5ForkCtx,
      Node.builtin 7]
    edges := [], builtins := [(7, 3)] }

/-- The type-expression inner evaluator for builtin tag 7. -/
def c5Inner : Analyzer → Nat → Analyzer × ExprRet := fun a c => parse_type_expr a c 7

/-- C5 counterexample: on a context with two live forks the dispatcher
replays the expression on each fork — each replay yields a `Single` — but
the overall result is the empty `Multi`, not a combination containing the
two per-fork results. -/
theorem c5_fork_results_discarded :
    (parse_ctx_expr c5Inner 2 c5S 0).2 = ExprRet.Multi []
    ∧ parse_ctx_expr c5Inner 1 c5S 1 = (c5S, ExprRet.Single 1 3)
    ∧ parse_ctx_expr c5Inner 1 c5S 2 = (c5S, ExprRet.Single 2 3)
    ∧ ExprRet.Multi [] ≠ ExprRet.Multi [ExprRet.Single 1 3, ExprRet.Single 2 3] :=
  ⟨rfl, rfl, rfl, by simp⟩

/-- C5 (amended).  The uniform dispatch law at both granularities: a killed
target yields `CtxKilled` (statements: no-op); with live forks the operation
is replayed once per live fork in order, threading the state — expressions
through the recursive dispatcher, statements through the inner handler — and
the per-fork expression results are discarded, the overall expression result
being the empty `Multi`; otherwise the operation applies directly to the
context. -/
theorem c5_uniform_dispatch (inner : Analyzer → Nat → Analyzer × ExprRet)
    (sInner : Analyzer → Option Nat → Analyzer) (f : Nat) (a : Analyzer) (ctx : Nat)
    (c : Context) (hc : a.node ctx = Node.context c) :
    (a.isKilled ctx = true →
      parse_ctx_expr inner (f+1) a ctx = (a, ExprRet.CtxKilled)
      ∧ parse_ctx_statement sInner a (some ctx) = a)
    ∧ (a.isKilled ctx = false → a.liveForks ctx = [] →
      parse_ctx_expr inner (f+1) a ctx = inner a ctx
      ∧ parse_ctx_statement sInner a (some ctx) = sInner a (some ctx))
    ∧ (a.isKilled ctx = false → a.liveForks ctx ≠ [] →
      parse_ctx_expr inner (f+1) a ctx =
        ((a.liveForks ctx).foldl (fun acc fork_ctx => (parse_ctx_expr inner f acc fork_ctx).1) a,
          ExprRet.Multi [])
      ∧ parse_ctx_statement sInner a (some ctx) =
          (a.liveForks ctx).foldl (fun acc fork_ctx => sInner acc (some fork_ctx)) a) := by
  refine ⟨?_, ?_, ?_⟩
  · intro hk
    constructor
    · rw [parse_ctx_expr.eq_def, if_pos hk]
    · simp only [parse_ctx_statement, hc]
      rw [if_pos hk]
  · intro hk hlf
    have hemp : (a.liveForks ctx).isEmpty = true := by rw [hlf]; rfl
    constructor
    · rw [parse_ctx_expr.eq_def, if_neg (by simp [hk]), if_pos hemp]
    · simp only [parse_ctx_statement, hc]
      rw [if_neg (by simp [hk]), if_pos hemp]
  · intro hk hlf
    have hemp : ¬ (a.liveForks ctx).isEmpty = true := by
      simp [List.isEmpty_iff, hlf]
    constructor
    · rw [parse_ctx_expr.eq_def, if_neg (by simp [hk]), if_neg hemp]
    · simp only [parse_ctx_statement, hc]
      rw [if_neg (by simp [hk]), if_neg hemp]

/-- Witness for C5 (amended): the three branches at the concrete forked
state `c5S`. -/
theorem c5_uniform_dispatch_witness :
    parse_ctx_expr c5Inner 2 c5S 0 =
      ((c5S.liveForks 0).foldl (fun acc fork_ctx => (parse_ctx_expr c5Inner 1 acc fork_ctx).1) c5S,
        ExprRet.Multi [])
    ∧ parse_ctx_statement (fun a _ => a) c5S (some 0) =
        (c5S.liveForks 0).foldl (fun acc fork_ctx => (fun (a : Analyzer) (_ : Option Nat) => a) acc (some fork_ctx)) c5S :=
  (c5_uniform_dispatch c5Inner (fun a _ => a) 1 c5S 0 c5Parent (by decide)).2.2
    (by decide) (by decide)

theorem advance_var_in_ctx_spec (fuel : Nat) (a : Analyzer) (v : Nat) (loc : Loc) (ctx : Nat) :
    (a.advance_var_in_ctx fuel v loc ctx).2 = a.nodes.length
    ∧ (a.advance_var_in_ctx fuel v loc ctx).1.nodes
        = a.nodes ++ [Node.contextVar { a.varOf v with loc := some loc }]
    ∧ (a.advance_var_in_ctx fuel v loc ctx).1.builtins = a.builtins := by
  simp only [Analyzer.advance_var_in_ctx, Analyzer.addNode, Analyzer.addEdge]
  split
  · split
    · exact ⟨rfl, rfl, rfl⟩
    · exact ⟨rfl, rfl, rfl⟩
  · exact ⟨rfl, rfl, rfl⟩

theorem setVar_nodes {a : Analyzer} {i : Nat} {w : ContextVar} (v : ContextVar)
    (h : a.node i = Node.contextVar w) :
    a.setVar i v = { a with nodes := a.nodes.set i (Node.contextVar v) } := by
  rw [Analyzer.setVar]
  rw [Analyzer.node] at h
  rw [h]

/-- The range produced by `set_range_min` on a variable whose attached
range is `oldr`. -/
def srMinSet (oldr : Option SRange) (lo : RElem) : SRange :=
  match oldr with
  | some r0 => { r0 with min := lo }
  | none => { min := lo, max := lo }

/-- The range produced by `set_range_max` on a variable whose attached
range is `oldr`. -/
def srMaxSet (oldr : Option SRange) (hi : RElem) : SRange :=
  match oldr with
  | some r0 => { r0 with max := hi }
  | none => { min := hi, max := hi }

theorem set_range_min_builtin {a : Analyzer} {i : Nat} {w : ContextVar} {b : Nat}
    {oldr : Option SRange} (lo : RElem)
    (hnode : a.node i = Node.contextVar w)
    (hty : w.ty = VarType.builtIn b oldr) :
    a.set_range_min i lo =
      { a with
        nodes := a.nodes.set i
          (Node.contextVar { w with ty := VarType.builtIn b (some (srMinSet oldr lo)) }) } := by
  have hw : a.varOf i = w := by rw [Analyzer.varOf, hnode]
  cases oldr with
  | some r0 =>
    rw [Analyzer.set_range_min, hw, hty]
    simp only
    rw [setVar_nodes _ hnode]
    rfl
  | none =>
    rw [Analyzer.set_range_min, hw, hty]
    simp only
    rw [setVar_nodes _ hnode]
    rfl

theorem set_range_max_builtin {a : Analyzer} {i : Nat} {w : ContextVar} {b : Nat}
    {oldr : Option SRange} (hi : RElem)
    (hnode : a.node i = Node.contextVar w)
    (hty : w.ty = VarType.builtIn b oldr) :
    a.set_range_max i hi =
      { a with
        nodes := a.nodes.set i
          (Node.contextVar { w with ty := VarType.builtIn b (some (srMaxSet oldr hi)) }) } := by
  have hw : a.varOf i = w := by rw [Analyzer.varOf, hnode]
  cases oldr with
  | some r0 =>
    rw [Analyzer.set_range_max, hw, hty]
    simp only
    rw [setVar_nodes _ hnode]
    rfl
  | none =>
    rw [Analyzer.set_range_max, hw, hty]
    simp only
    rw [setVar_nodes _ hnode]
    rfl

theorem srMaxSet_of_srMinSet (oldr : Option SRange) (lo hi : RElem) :
    srMaxSet (some (srMinSet oldr lo)) hi = { min := lo, max := hi } := by
  cases oldr <;> rfl

theorem assign_ok_core (fuel : Nat) (a : Analyzer) (loc : Loc) (lhs rhs ctx : Nat)
    (v : ContextVar) (b : Nat) (oldr : Option SRange) (lo hi : RElem)
    (hv : a.node lhs = Node.contextVar v)
    (hty : v.ty = VarType.builtIn b oldr)
    (hbounds : (match a.range rhs with
       | some range => some (range.min, range.max)
       | none =>
         match a.range lhs with
         | some _ =>
           some (RElem.dynamic rhs DynSide.Min loc, RElem.dynamic rhs DynSide.Max loc)
         | none => none) = some (lo, hi)) :
    ∃ a', a.assign fuel loc lhs rhs ctx = Except.ok (a', ExprRet.Single ctx a.nodes.length)
      ∧ (a'.varOf a.nodes.length).ty = VarType.builtIn b (some { min := lo, max := hi })
      ∧ a'.nodes.length = a.nodes.length + 1
      ∧ (∀ j, j < a.nodes.length → a'.node j = a.node j) := by
  have hva : a.varOf lhs = v := by rw [Analyzer.varOf, hv]
  obtain ⟨hn2, hnodes, -⟩ := advance_var_in_ctx_spec fuel a lhs loc ctx
  rw [hva] at hnodes
  have hnode1 : (a.advance_var_in_ctx fuel lhs loc ctx).1.node a.nodes.length
      = Node.contextVar { v with loc := some loc } := by
    rw [Analyzer.node, hnodes]
    simp
  have hty1 : ContextVar.ty { v with loc := some loc } = VarType.builtIn b oldr := hty
  have h1 := set_range_min_builtin (a := (a.advance_var_in_ctx fuel lhs loc ctx).1)
    (i := a.nodes.length) lo hnode1 hty1
  have hlen1 : a.nodes.length < (a.advance_var_in_ctx fuel lhs loc ctx).1.nodes.length := by
    rw [hnodes]; simp
  have hnode2 : ((a.advance_var_in_ctx fuel lhs loc ctx).1.set_range_min a.nodes.length lo).node
      a.nodes.length = Node.contextVar { { v with loc := some loc } with
        ty := VarType.builtIn b (some (srMinSet oldr lo)) } := by
    rw [h1, Analyzer.node]
    simp [List.getD, List.getElem?_set_eq_of_lt _ hlen1]
  have h2 := set_range_max_builtin
    (a := (a.advance_var_in_ctx fuel lhs loc ctx).1.set_range_min a.nodes.length lo)
    (i := a.nodes.length) hi hnode2 rfl
  rw [srMaxSet_of_srMinSet] at h2
  simp only [Analyzer.assign, hbounds]
  rw [hn2]
  refine ⟨_, rfl, ?_, ?_, ?_⟩
  · rw [h2, Analyzer.varOf, Analyzer.node, h1]
    simp [List.getD, List.getElem?_set_eq_of_lt, hlen1]
  · rw [h2, h1]
    simp [hnodes]
  · intro j hj
    rw [h2, h1]
    have hne : a.nodes.length ≠ j := fun h => absurd (h ▸ hj) (Nat.lt_irrefl _)
    simp [Analyzer.node, List.getD, List.set_set, List.getElem?_set_ne hne, hnodes,
      List.getElem?_append_left hj]

/-- C4.  Base assignment semantics of `assign(lhs, rhs, ctx)`: the LHS is
always advanced to a fresh SSA node (the new index is the old arena size and
every old node, the old LHS version included, is untouched); the new node
gets the RHS's min/max bounds verbatim when the RHS carries a range;
otherwise, when only the LHS carries a range, it gets lazy `Dynamic` bounds
referring to the RHS node's own min and max sides; and the call fails
fatally (the source panics) exactly when neither side carries a range. -/
theorem c4_assign_semantics (fuel : Nat) (a : Analyzer) (loc : Loc) (lhs rhs ctx : Nat)
    (v : ContextVar) (b : Nat) (oldr : Option SRange)
    (hv : a.node lhs = Node.contextVar v)
    (hty : v.ty = VarType.builtIn b oldr) :
    (∀ r, a.range rhs = some r →
      ∃ a', a.assign fuel loc lhs rhs ctx = Except.ok (a', ExprRet.Single ctx a.nodes.length)
        ∧ (a'.varOf a.nodes.length).ty = VarType.builtIn b (some { min := r.min, max := r.max })
        ∧ a'.nodes.length = a.nodes.length + 1
        ∧ (∀ j, j < a.nodes.length → a'.node j = a.node j))
    ∧ (a.range rhs = none → ∀ rl, a.range lhs = some rl →
      ∃ a', a.assign fuel loc lhs rhs ctx = Except.ok (a', ExprRet.Single ctx a.nodes.length)
        ∧ (a'.varOf a.nodes.length).ty = VarType.builtIn b
            (some { min := RElem.dynamic rhs DynSide.Min loc,
                    max := RElem.dynamic rhs DynSide.Max loc })
        ∧ a'.nodes.length = a.nodes.length + 1
        ∧ (∀ j, j < a.nodes.length → a'.node j = a.node j))
    ∧ (a.range rhs = none → a.range lhs = none →
      a.assign fuel loc lhs rhs ctx = Except.error "in assign, both lhs and rhs had no range") := by
  refine ⟨?_, ?_, ?_⟩
  · intro r hrr
    exact assign_ok_core fuel a loc lhs rhs ctx v b oldr r.min r.max hv hty (by rw [hrr])
  · intro hrr rl hrl
    exact assign_ok_core fuel a loc lhs rhs ctx v b oldr
      (RElem.dynamic rhs DynSide.Min loc) (RElem.dynamic rhs DynSide.Max loc) hv hty
      (by rw [hrr, hrl])
  · intro hrr hrl
    simp only [Analyzer.assign, hrr, hrl]

/-- The variable payloads of the assignment test states: a builtin-typed
variable named `nm` with the optional attached range `r`. -/
def c4Var (nm : String) (r : Option SRange) : ContextVar :=
  { ContextVar.empty with
    name := nm, display_name := nm, loc := some 1, ty := VarType.builtIn 9 r }

/-- Assignment test state: context 0, `a` (index 1, no range yet) and `b`
(index 2, concrete range [0,10]), both members of context 0. -/
def c4S : Analyzer :=
  { nodes := [Node.context Context.empty,
      Node.contextVar (c4Var "a" none),
      Node.contextVar (c4Var "b" (some { min := RElem.concrete 0, max := RElem.concrete 10 }))]
    edges := [{ src := 1, tgt := 0, w := Edge.context ContextEdge.Variable },
      { src := 2, tgt := 0, w := Edge.context ContextEdge.Variable }]
    builtins := [] }

/-- Witness for C4, the spec's Scenario 4: `a = b` where `b` carries the
concrete range [0,10] gives a fresh version of `a` (node 3) carrying the
identical concrete bounds, with every pre-existing node untouched. -/
theorem c4_assign_semantics_witness :
    ∃ a', c4S.assign 9 5 1 2 0 = Except.ok (a', ExprRet.Single 0 3)
      ∧ (a'.varOf 3).ty = VarType.builtIn 9
          (some { min := RElem.concrete 0, max := RElem.concrete 10 })
      ∧ a'.nodes.length = 3 + 1
      ∧ (∀ j, j < 3 → a'.node j = c4S.node j) :=
  (c4_assign_semantics 9 c4S 5 1 2 0 (c4Var "a" none) 9 none (by decide) rfl).1
    { min := RElem.concrete 0, max := RElem.concrete 10 } (by decide)

theorem exceptMapAccum_length {α : Type} (recf : Analyzer → α → Except String (Analyzer × ExprRet)) :
    ∀ (xs : List α) (a a' : Analyzer) (outs : List ExprRet),
      exceptMapAccum recf a xs = Except.ok (a', outs) → outs.length = xs.length := by
  intro xs
  induction xs with
  | nil =>
    intro a a' outs h
    simp only [exceptMapAccum] at h
    cases h
    rfl
  | cons x rest ih =>
    intro a a' outs h
    simp only [exceptMapAccum] at h
    cases h1 : recf a x with
    | error e => simp [h1] at h
    | ok pr =>
      obtain ⟨a2, out⟩ := pr
      simp only [h1] at h
      cases h2 : exceptMapAccum recf a2 rest with
      | error e => simp [h2] at h
      | ok pr2 =>
        obtain ⟨a3, outs2⟩ := pr2
        simp only [h2, Except.ok.injEq, Prod.mk.injEq] at h
        obtain ⟨-, h4⟩ := h
        subst h4
        simp [ih a2 a3 outs2 h2]

/-- C3.  The shape algebra of `match_assign_sides`: a `Multi` LHS against a
`Multi` RHS of equal length `n` is the element-wise zip, yielding a `Multi`
of exactly `n` entries (for `n = 2`, 2 entries, not 4); a `Fork` against a
`Fork` is the full 2-by-2 cross product, a `Fork` of `Fork`s with exactly
four leaf result slots; and a `Multi` LHS against a `Multi` RHS of a
different length broadcasts the whole LHS across each RHS element, yielding
one entry per RHS element rather than an error. -/
theorem c3_match_assign_sides_shapes (f : Nat) (a a' : Analyzer) (loc : Loc)
    (ls rs : List ExprRet) (l1 l2 r1 r2 : ExprRet) (ctx : Nat) (out : ExprRet) :
    (ls.length = rs.length →
      Analyzer.match_assign_sides (f+1) a loc (ExprRet.Multi ls) (ExprRet.Multi rs) ctx
        = Except.ok (a', out) →
      ∃ outs, out = ExprRet.Multi outs ∧ outs.length = ls.length ∧
        exceptMapAccum (fun a2 p => Analyzer.match_assign_sides f a2 loc p.1 p.2 ctx) a
          (ls.zip rs) = Except.ok (a', outs))
    ∧ (Analyzer.match_assign_sides (f+1) a loc (ExprRet.Fork l1 l2) (ExprRet.Fork r1 r2) ctx
        = Except.ok (a', out) →
      ∃ w11 w12 w21 w22,
        out = ExprRet.Fork (ExprRet.Fork w11 w12) (ExprRet.Fork w21 w22))
    ∧ (ls.length ≠ rs.length →
      Analyzer.match_assign_sides (f+1) a loc (ExprRet.Multi ls) (ExprRet.Multi rs) ctx
        = Except.ok (a', out) →
      ∃ outs, out = ExprRet.Multi outs ∧ outs.length = rs.length ∧
        exceptMapAccum (fun a2 r => Analyzer.match_assign_sides f a2 loc (ExprRet.Multi ls) r ctx)
          a rs = Except.ok (a', outs)) := by
  refine ⟨?_, ?_, ?_⟩
  · intro hlen hres
    simp only [Analyzer.match_assign_sides] at hres
    rw [if_pos hlen] at hres
    cases hm : exceptMapAccum (fun a2 p => Analyzer.match_assign_sides f a2 loc p.1 p.2 ctx) a
        (ls.zip rs) with
    | error e => simp [hm] at hres
    | ok pr =>
      obtain ⟨a2, outs⟩ := pr
      simp only [hm, Except.ok.injEq, Prod.mk.injEq] at hres
      obtain ⟨h1, h2⟩ := hres
      subst h1
      refine ⟨outs, h2.symm, ?_, rfl⟩
      rw [exceptMapAccum_length _ _ _ _ _ hm]
      simp [hlen]
  · intro hres
    simp only [Analyzer.match_assign_sides] at hres
    split at hres
    · exact absurd hres (by simp)
    · split at hres
      · exact absurd hres (by simp)
      · split at hres
        · exact absurd hres (by simp)
        · split at hres
          · exact absurd hres (by simp)
          · simp only [Except.ok.injEq, Prod.mk.injEq] at hres
            exact ⟨_, _, _, _, hres.2.symm⟩
  · intro hlen hres
    simp only [Analyzer.match_assign_sides] at hres
    rw [if_neg hlen] at hres
    cases hm : exceptMapAccum
        (fun a2 r => Analyzer.match_assign_sides f a2 loc (ExprRet.Multi ls) r ctx) a rs with
    | error e => simp [hm] at hres
    | ok pr =>
      obtain ⟨a2, outs⟩ := pr
      simp only [hm, Except.ok.injEq, Prod.mk.injEq] at hres
      obtain ⟨h1, h2⟩ := hres
      subst h1
      exact ⟨outs, h2.symm, exceptMapAccum_length _ _ _ _ _ hm, rfl⟩

/-- The two-element `Multi` LHS of the zip witness. -/
def c3L : List ExprRet := [ExprRet.Single 0 1, ExprRet.Single 0 2]

/-- The two-element `Multi` RHS of the zip witness. -/
def c3R : List ExprRet := [ExprRet.Single 0 3, ExprRet.Single 0 4]

/-- Assignment-shape test state: context 0 and four ranged variables. -/
def c3S : Analyzer :=
  { nodes := [Node.context Context.empty,
      Node.contextVar (c4Var "a" (some { min := RElem.concrete 0, max := RElem.concrete 1 })),
      Node.contextVar (c4Var "b" (some { min := RElem.concrete 0, max := RElem.concrete 2 })),
      Node.contextVar (c4Var "c" (some { min := RElem.concrete 0, max := RElem.concrete 3 })),
      Node.contextVar (c4Var "d" (some { min := RElem.concrete 0, max := RElem.concrete 4 }))]
    edges := [{ src := 1, tgt := 0, w := Edge.context ContextEdge.Variable },
      { src := 2, tgt := 0, w := Edge.context ContextEdge.Variable },
      { src := 3, tgt := 0, w := Edge.context ContextEdge.Variable },
      { src := 4, tgt := 0, w := Edge.context ContextEdge.Variable }]
    builtins := [] }

/-- The computed result of the 2-by-2 zip assignment on `c3S`. -/
def c3res : Analyzer × ExprRet :=
  ((Analyzer.match_assign_sides 9 c3S 5 (ExprRet.Multi c3L) (ExprRet.Multi c3R) 0).toOption).getD
    (c3S, ExprRet.CtxKilled)

/-- Witness for C3: on `c3S` the 2-element zip yields a `Multi` with exactly
2 entries, produced by the element-wise zip accumulator. -/
theorem c3_match_assign_sides_shapes_witness :
    ∃ outs, c3res.2 = ExprRet.Multi outs ∧ outs.length = c3L.length ∧
      exceptMapAccum (fun a2 p => Analyzer.match_assign_sides 8 a2 5 p.1 p.2 0) c3S
        (c3L.zip c3R) = Except.ok (c3res.1, outs) :=
  (c3_match_assign_sides_shapes 8 c3S c3res.1 5 c3L c3R ExprRet.CtxKilled ExprRet.CtxKilled
      ExprRet.CtxKilled ExprRet.CtxKilled 0 c3res.2).1 rfl rfl

theorem search_for_ancestor_congr (fuel : Nat) :
    ∀ (a a' : Analyzer), a'.edges = a.edges → ∀ s ety,
      Analyzer.search_for_ancestor fuel a' s ety = Analyzer.search_for_ancestor fuel a s ety := by
  induction fuel with
  | zero => intro a a' h s ety; rfl
  | succ f ih =>
    intro a a' h s ety
    rw [Analyzer.search_for_ancestor, Analyzer.search_for_ancestor, h]
    have hrec : ∀ e : GEdge, Analyzer.search_for_ancestor f a' e.tgt ety
        = Analyzer.search_for_ancestor f a e.tgt ety := fun e => ih a a' h e.tgt ety
    simp only [hrec]

theorem maybe_ctx_congr (fuel : Nat) (a a' : Analyzer) (h : a'.edges = a.edges) (v : Nat) :
    a'.maybe_ctx fuel v = a.maybe_ctx fuel v :=
  search_for_ancestor_congr fuel a a' h v _

/-- The pre-fork parent context of the SSA scenario, with forks 1 and 2. -/
def ssaParent : Context := { Context.empty with path := "fn", forks := [1, 2] }

/-- A fork of `ssaParent`. -/
def ssaForkCtx : Context := { Context.empty with parent_ctx := some 0, is_fork := true }

/-- The pre-fork variable `x`, owned by the parent context. -/
def ssaX : ContextVar :=
  { ContextVar.empty with
    name := "x", display_name := "x", loc := some 1,
    ty := VarType.builtIn 9 (some { min := RElem.concrete 0, max := RElem.concrete 5 }) }

/-- SSA scenario start state: parent 0 with forks 1 and 2, and `x` at node 3
linked into the parent by a membership edge. -/
def ssaS0 : Analyzer :=
  { nodes := [Node.context ssaParent, Node.context ssaForkCtx, Node.context ssaForkCtx,
      Node.contextVar ssaX]
    edges := [{ src := 1, tgt := 0, w := Edge.context ContextEdge.ContextFork },
      { src := 2, tgt := 0, w := Edge.context ContextEdge.ContextFork },
      { src := 3, tgt := 0, w := Edge.context ContextEdge.Variable }]
    builtins := [] }

/-- After fork 1 writes `x`: a new version (node 4) linked into fork 1. -/
def ssaS1 : Analyzer := (ssaS0.advance_var_in_ctx 9 3 11 1).1

/-- After fork 2 also writes `x`: another version (node 5) linked into fork 2. -/
def ssaS2 : Analyzer := (ssaS1.advance_var_in_ctx 9 3 12 2).1

/-- C6.  `advance_var_in_ctx` inserts a fresh immutable clone of the
variable stamped with the new location (fresh index = old arena size), and
appends exactly one link: a membership (`Variable`) edge into `ctx` exactly
when the variable's previous owning context exists and differs from `ctx`,
and a previous-version (`Prev`) edge to the predecessor node otherwise.
Consequently two sibling forks that both write a pre-fork `x` end up with
two distinct same-named variable nodes, each the result of its own branch's
latest-version lookup. -/
theorem c6_advance_var_edge_policy (fuel : Nat) (a : Analyzer) (cvar : Nat) (loc : Loc)
    (ctx : Nat) :
    (a.advance_var_in_ctx fuel cvar loc ctx).2 = a.nodes.length
    ∧ (a.advance_var_in_ctx fuel cvar loc ctx).1.nodes
        = a.nodes ++ [Node.contextVar { a.varOf cvar with loc := some loc }]
    ∧ (∀ o, a.maybe_ctx fuel cvar = some o → o ≠ ctx →
        (a.advance_var_in_ctx fuel cvar loc ctx).1.edges = a.edges
          ++ [{ src := a.nodes.length, tgt := ctx, w := Edge.context ContextEdge.Variable }])
    ∧ (a.maybe_ctx fuel cvar = some ctx →
        (a.advance_var_in_ctx fuel cvar loc ctx).1.edges = a.edges
          ++ [{ src := a.nodes.length, tgt := cvar, w := Edge.context ContextEdge.Prev }])
    ∧ (a.maybe_ctx fuel cvar = none →
        (a.advance_var_in_ctx fuel cvar loc ctx).1.edges = a.edges
          ++ [{ src := a.nodes.length, tgt := cvar, w := Edge.context ContextEdge.Prev }])
    ∧ (ssaS2.varOf 4).name = "x"
    ∧ (ssaS2.varOf 5).name = "x"
    ∧ ssaS2.latest_var_by_name 9 1 "x" = some 4
    ∧ ssaS2.latest_var_by_name 9 2 "x" = some 5
    ∧ ssaS2.latest_var_by_name 9 1 "x" ≠ ssaS2.latest_var_by_name 9 2 "x" := by
  obtain ⟨h1, h2, -⟩ := advance_var_in_ctx_spec fuel a cvar loc ctx
  have hedg : (a.addNode (Node.contextVar { a.varOf cvar with loc := some loc })).1.maybe_ctx
      fuel cvar = a.maybe_ctx fuel cvar :=
    maybe_ctx_congr fuel a
      ((a.addNode (Node.contextVar { a.varOf cvar with loc := some loc })).1) rfl cvar
  refine ⟨h1, h2, ?_, ?_, ?_, by decide, by decide, by decide, by decide, by decide⟩
  · intro o ho hne
    simp only [Analyzer.advance_var_in_ctx]
    rw [hedg, ho]
    simp [hne, Analyzer.addEdge, Analyzer.addNode]
  · intro ho
    simp only [Analyzer.advance_var_in_ctx]
    rw [hedg, ho]
    simp [Analyzer.addEdge, Analyzer.addNode]
  · intro ho
    simp only [Analyzer.advance_var_in_ctx]
    rw [hedg, ho]
    simp [Analyzer.addEdge, Analyzer.addNode]

/-- Witness for C6: advancing the parent-owned `x` (node 3) inside fork 1
crosses a branch boundary, so the fresh node 4 is linked into fork 1 by a
membership edge. -/
theorem c6_advance_var_edge_policy_witness :
    (ssaS0.advance_var_in_ctx 9 3 11 1).1.edges = ssaS0.edges
      ++ [{ src := 4, tgt := 1, w := Edge.context ContextEdge.Variable }] :=
  (c6_advance_var_edge_policy 9 ssaS0 3 11 1).2.2.1 0 (by decide) (by decide)

theorem analysesForAccesses_length (fuel : Nat) (a : Analyzer) (array : Nat) :
    ∀ (accs : List Nat) (outs : List ArrayAccessAnalysis),
      a.analysesForAccesses fuel array accs = Except.ok outs → outs.length = accs.length := by
  intro accs
  induction accs with
  | nil =>
    intro outs h
    simp only [Analyzer.analysesForAccesses] at h
    cases h
    rfl
  | cons x rest ih =>
    intro outs h
    simp only [Analyzer.analysesForAccesses] at h
    cases h1 : a.analysisForAccess fuel array x with
    | error e => simp [h1] at h
    | ok r =>
      simp only [h1] at h
      cases h2 : a.analysesForAccesses fuel array rest with
      | error e => simp [h2] at h
      | ok rs =>
        simp only [h2, Except.ok.injEq] at h
        subst h
        simp [ih rs h2]

/-- C7.  Bound-analyzer output: `min_size_to_prevent_access_revert` walks
the `(array, access)` pairs grouped by `nodes_with_children` and emits
exactly one record per pair; each record carries the array's defining node,
the array-definition span and the access span, its relation is always
greater-than, and its target is the concrete value for a concrete unsigned
numeric index, a dynamic reference to the index variable for a builtin-typed
index carrying a range, and a dynamic reference to the access node itself
for a builtin-typed index without a range. -/
theorem c7_min_size_records (fuel : Nat) (a : Analyzer) (ctx array access cvar_idx : Nat)
    (cv av : ContextVar) (aloc cloc : Loc)
    (hidx : (a.search_children fuel access (Edge.context ContextEdge.Index)).head? = some cvar_idx)
    (hcv : a.node cvar_idx = Node.contextVar cv)
    (harr : a.node array = Node.contextVar av)
    (hal : av.loc = some aloc)
    (hcl : cv.loc = some cloc) :
    (∀ m, a.nodes_with_children fuel ctx (Edge.context ContextEdge.IndexAccess) = some m →
      a.min_size_to_prevent_access_revert fuel ctx = a.analysesForArrays fuel m)
    ∧ (∀ accs outs, a.analysesForAccesses fuel array accs = Except.ok outs →
        outs.length = accs.length)
    ∧ (∀ cn sz val, cv.ty = VarType.concreteTy cn →
        a.node cn = Node.concrete (Concrete.uint sz val) →
        a.analysisForAccess fuel array access = Except.ok
          { arr_def := array, arr_loc := aloc, access_loc := cloc,
            analysis := Analysis.Relative Relative.Gt
              (RelativeTarget.Concrete (Concrete.uint sz val)),
            analysis_ty := ArrayAccessKind.MinSize })
    ∧ (∀ bn r, cv.ty = VarType.builtIn bn (some r) →
        a.analysisForAccess fuel array access = Except.ok
          { arr_def := array, arr_loc := aloc, access_loc := cloc,
            analysis := Analysis.Relative Relative.Gt (RelativeTarget.Dynamic cvar_idx),
            analysis_ty := ArrayAccessKind.MinSize })
    ∧ (∀ bn, cv.ty = VarType.builtIn bn none →
        a.analysisForAccess fuel array access = Except.ok
          { arr_def := array, arr_loc := aloc, access_loc := cloc,
            analysis := Analysis.Relative Relative.Gt (RelativeTarget.Dynamic access),
            analysis_ty := ArrayAccessKind.MinSize }) := by
  refine ⟨?_, ?_, ?_, ?_, ?_⟩
  · intro m hm
    rw [Analyzer.min_size_to_prevent_access_revert, hm]
  · exact fun accs outs h => analysesForAccesses_length fuel a array accs outs h
  · intro cn sz val hty hcn
    simp only [Analyzer.analysisForAccess, hidx, hcv, harr, hal, hcl, hty, hcn]
  · intro bn r hty
    simp only [Analyzer.analysisForAccess, hidx, hcv, harr, hal, hcl, hty]
  · intro bn hty
    simp only [Analyzer.analysisForAccess, hidx, hcv, harr, hal, hcl, hty]

/-- The array variable of the bound-analysis test states. -/
def c7Arr : ContextVar :=
  { ContextVar.empty with
    name := "arr", display_name := "arr", loc := some 2, ty := VarType.builtIn 9 none }

/-- The access node of the bound-analysis test states. -/
def c7Access : ContextVar :=
  { ContextVar.empty with
    name := "arr[idx]", display_name := "arr[idx]", loc := some 3,
    ty := VarType.builtIn 9 none }

/-- The concrete index variable: value node 4 holds `uint256 5`. -/
def c7Idx : ContextVar :=
  { ContextVar.empty with
    name := "idx", display_name := "idx", loc := some 4, ty := VarType.concreteTy 4 }

/-- Bound-analysis test state: `arr[5]` recorded under context 0
(array at node 1, access at node 2, index variable at node 3, concrete 5 at
node 4). -/
def c7S : Analyzer :=
  { nodes := [Node.context Context.empty, Node.contextVar c7Arr, Node.contextVar c7Access,
      Node.contextVar c7Idx, Node.concrete (Concrete.uint 256 5)]
    edges := [{ src := 1, tgt := 0, w := Edge.context ContextEdge.Variable },
      { src := 2, tgt := 1, w := Edge.context ContextEdge.IndexAccess },
      { src := 3, tgt := 2, w := Edge.context ContextEdge.Index }]
    builtins := [] }

/-- Witness for C7, the spec's Scenario 3: indexing `arr` by the literal 5
produces exactly the one record `length > 5` carrying the array node, the
array span and the access span. -/
theorem c7_min_size_records_witness :
    c7S.min_size_to_prevent_access_revert 9 0 = c7S.analysesForArrays 9 [(1, [2])]
    ∧ c7S.analysisForAccess 9 1 2 = Except.ok
        { arr_def := 1, arr_loc := 2, access_loc := 4,
          analysis := Analysis.Relative Relative.Gt
            (RelativeTarget.Concrete (Concrete.uint 256 5)),
          analysis_ty := ArrayAccessKind.MinSize } :=
  ⟨(c7_min_size_records 9 c7S 0 1 2 3 c7Idx c7Arr 2 4 (by decide) (by decide) (by decide)
      rfl rfl).1 [(1, [2])] (by decide),
   (c7_min_size_records 9 c7S 0 1 2 3 c7Idx c7Arr 2 4 (by decide) (by decide) (by decide)
      rfl rfl).2.2.1 4 256 5 (by decide) (by decide)⟩

/-- The non-numeric concrete index variable of the C8 counterexample:
value node 4 holds a non-numeric concrete (e.g. a bool). -/
def c8Idx : ContextVar :=
  { ContextVar.empty with
    name := "idx", display_name := "idx", loc := some 4, ty := VarType.concreteTy 4 }

/-- `arr[b]` where `b` is a non-numeric concrete value. -/
def c8S : Analyzer :=
  { nodes := [Node.context Context.empty, Node.contextVar c7Arr, Node.contextVar c7Access,
      Node.contextVar c8Idx, Node.concrete (Concrete.other 0)]
    edges := [{ src := 1, tgt := 0, w := Edge.context ContextEdge.Variable },
      { src := 2, tgt := 1, w := Edge.context ContextEdge.IndexAccess },
      { src := 3, tgt := 2, w := Edge.context ContextEdge.Index }]
    builtins := [] }

/-- C8 counterexample: on a non-numeric concrete index the bound analyzer
does not surface a recoverable unsupported-input result alongside its other
records — the whole pass aborts through the `panic!` (modelled as the
`Except.error` carrying the panic message), yielding no records at all. -/
theorem c8_unsupported_index_panics_counterexample :
    c8S.min_size_to_prevent_access_revert 9 0
      = Except.error "Attempt to index into an array with a non-uint concrete" := rfl

/-- C8 (amended).  When the resolved index value is a non-numeric concrete,
or its type is neither a concrete nor a builtin-typed variable, the bound
analyzer panics (a process abort, modelled as the error result carrying the
panic message), aborting the whole pass; the explicit unsupported-input
error surface the spec asks for is a requirement on reimplementations
(spec section 7), not the reference behavior. -/
theorem c8_unsupported_index_panics (fuel : Nat) (a : Analyzer) (array access cvar_idx : Nat)
    (cv av : ContextVar) (aloc cloc : Loc)
    (hidx : (a.search_children fuel access (Edge.context ContextEdge.Index)).head? = some cvar_idx)
    (hcv : a.node cvar_idx = Node.contextVar cv)
    (harr : a.node array = Node.contextVar av)
    (hal : av.loc = some aloc)
    (hcl : cv.loc = some cloc) :
    (∀ cn sz val, cv.ty = VarType.concreteTy cn →
      a.node cn = Node.concrete (Concrete.int sz val) →
      a.analysisForAccess fuel array access
        = Except.error "Attempt to index into an array with a non-uint concrete")
    ∧ (∀ cn t, cv.ty = VarType.concreteTy cn →
      a.node cn = Node.concrete (Concrete.other t) →
      a.analysisForAccess fuel array access
        = Except.error "Attempt to index into an array with a non-uint concrete")
    ∧ (∀ t, cv.ty = VarType.other t →
      a.analysisForAccess fuel array access
        = Except.error "Attempt to index into an array with this type") := by
  refine ⟨?_, ?_, ?_⟩
  · intro cn sz val hty hcn
    simp only [Analyzer.analysisForAccess, hidx, hcv, harr, hal, hcl, hty, hcn]
  · intro cn t hty hcn
    simp only [Analyzer.analysisForAccess, hidx, hcv, harr, hal, hcl, hty, hcn]
  · intro t hty
    simp only [Analyzer.analysisForAccess, hidx, hcv, harr, hal, hcl, hty]

/-- Witness for C8 (amended): the concrete non-numeric index of `c8S`. -/
theorem c8_unsupported_index_panics_witness :
    c8S.analysisForAccess 9 1 2
      = Except.error "Attempt to index into an array with a non-uint concrete" :=
  (c8_unsupported_index_panics 9 c8S 1 2 3 c8Idx c7Arr 2 4 (by decide) (by decide) (by decide)
      rfl rfl).2.1 4 0 (by decide) (by decide)

theorem latest_version_chain (a : Analyzer) :
    ∀ (chain : List Nat) (fuel : Nat) (hne : chain ≠ []),
      List.Chain' (fun x y => a.prevSuccessor x = some y) chain →
      a.prevSuccessor (chain.getLast hne) = none →
      chain.length ≤ fuel →
      Analyzer.latest_version fuel a (chain.head hne) = chain.getLast hne := by
  intro chain
  induction chain with
  | nil => intro fuel hne; exact absurd rfl hne
  | cons x rest ih =>
    intro fuel hne hadj hlast hfuel
    cases rest with
    | nil =>
      cases fuel with
      | zero => exact absurd hfuel (by simp)
      | succ f =>
        simp only [List.head_cons, List.getLast_singleton] at hlast ⊢
        rw [Analyzer.latest_version, hlast]
    | cons y rest' =>
      cases fuel with
      | zero => exact absurd hfuel (by simp)
      | succ f =>
        obtain ⟨hstep, hadj'⟩ := List.chain'_cons.mp hadj
        have hne' : y :: rest' ≠ [] := by simp
        have hlast' : (x :: y :: rest').getLast hne = (y :: rest').getLast hne' :=
          List.getLast_cons hne'
        rw [hlast'] at hlast
        simp only [List.head_cons]
        rw [Analyzer.latest_version, hstep, hlast']
        have hfuel' : (y :: rest').length ≤ f := by
          simp only [List.length_cons] at hfuel ⊢
          omega
        have := ih f hne' hadj' hlast hfuel'
        rw [List.head_cons] at this
        exact this

theorem mem_le_getLast :
    ∀ (l : List Nat) (hne : l ≠ []), l.Pairwise (· < ·) → ∀ v ∈ l, v ≤ l.getLast hne := by
  intro l
  induction l with
  | nil => intro hne; exact absurd rfl hne
  | cons x rest ih =>
    intro hne hp v hv
    obtain ⟨hx, hp'⟩ := List.pairwise_cons.mp hp
    cases rest with
    | nil =>
      simp only [List.mem_singleton] at hv
      subst hv
      simp [List.getLast_singleton]
    | cons y rest' =>
      have hne' : y :: rest' ≠ [] := by simp
      rw [List.getLast_cons hne']
      rcases List.mem_cons.mp hv with hvx | hvr
      · subst hvx
        exact Nat.le_of_lt (hx _ (List.getLast_mem hne'))
      · exact ih hne' hp' v hvr

/-- C9.  `latest_var_by_name` picks the first name match in the set of
variables reachable from the context through `Variable` edges and chases its
previous-version chain forward; when the reachable name matches form one
version chain `v0 → v1 → ... → vn` (the shape the interpreter's
`advance_var_in_ctx` discipline maintains on a path), the lookup returns
exactly the chain's end `vn`, which — versions being appended to the arena
in creation order — is the most recently created reachable node of that
name; when no variable of the name is reachable the lookup returns `none`;
and on the two-fork SSA state each fork's lookup returns its own branch's
version, never the sibling's. -/
theorem c9_latest_var_by_name (fuel : Nat) (a : Analyzer) (ctx : Nat) (name : String) :
    (((a.search_children fuel ctx (Edge.context ContextEdge.Variable)).filter
        (fun n => match a.node n with
          | Node.contextVar v => v.name = name
          | _ => false)) = [] →
      a.latest_var_by_name fuel ctx name = none)
    ∧ (∀ (chain : List Nat) (hne : chain ≠ []),
        ((a.search_children fuel ctx (Edge.context ContextEdge.Variable)).filter
          (fun n => match a.node n with
            | Node.contextVar v => v.name = name
            | _ => false)) = chain →
        List.Chain' (fun x y => a.prevSuccessor x = some y) chain →
        a.prevSuccessor (chain.getLast hne) = none →
        chain.length ≤ fuel →
        a.latest_var_by_name fuel ctx name = some (chain.getLast hne)
          ∧ (chain.Pairwise (· < ·) → ∀ v ∈ chain, v ≤ chain.getLast hne))
    ∧ ssaS2.latest_var_by_name 9 1 "x" = some 4
    ∧ ssaS2.latest_var_by_name 9 2 "x" = some 5 := by
  refine ⟨?_, ?_, by decide, by decide⟩
  · intro h
    rw [Analyzer.latest_var_by_name, Analyzer.var_by_name, h]
    rfl
  · intro chain hne hchain hadj hlast hfuel
    constructor
    · rw [Analyzer.latest_var_by_name, Analyzer.var_by_name, hchain]
      rw [List.head?_eq_head hne]
      simp only [Option.map_some']
      rw [latest_version_chain a chain fuel hne hadj hlast hfuel]
    · exact fun hp v hv => mem_le_getLast chain hne hp v hv

/-- Witness for C9: on the two-fork SSA state, fork 1's reachable `x`
versions form the single chain `[4]`, and the lookup returns its end. -/
theorem c9_latest_var_by_name_witness :
    ssaS2.latest_var_by_name 9 1 "x" = some ((([4] : List Nat)).getLast (by simp))
      ∧ (([4] : List Nat).Pairwise (· < ·) → ∀ v ∈ ([4] : List Nat),
          v ≤ ([4] : List Nat).getLast (by simp)) :=
  (c9_latest_var_by_name 9 ssaS2 1 "x").2.1 [4] (by simp) (by decide) (by simp) (by decide)
    (by decide)













